import Mathlib

/-!
Verification of the GoCubes client-side cube engine and layer solver.

The definitions below are a shallow embedding of the JavaScript classes
`CubeModel` (rubiks-cube-web/static/js/cube_model.js, bundled in
static/js/cube3d.js) and `CubeSolverJS` (static/js/solver_logic.js).
Faces are records of nine sticker characters; the cube state maps the six
face names to faces.  JavaScript `while` loops with no iteration counter
are modelled with an explicit fuel parameter returning `none` when the
fuel is exhausted, so that non-termination of the original loop
corresponds to the fuel-indexed function returning `none` for every fuel.
-/

namespace GoCubes

/-- One face of the cube: nine sticker colours in row-major order, index 4
being the centre.  Mirrors a 9-element JS array `state[face]`. -/
structure Face where
  s0 : Char
  s1 : Char
  s2 : Char
  s3 : Char
  s4 : Char
  s5 : Char
  s6 : Char
  s7 : Char
  s8 : Char
deriving DecidableEq, Repr

/-- The whole cube state: the six named faces of `CubeModel.state`. -/
structure CubeState where
  up : Face
  down : Face
  front : Face
  back : Face
  left : Face
  right : Face
deriving DecidableEq, Repr

/-- A face filled with a single colour, as produced by `Array(9).fill(c)`. -/
def uniformFace (ch : Char) : Face := ⟨ch, ch, ch, ch, ch, ch, ch, ch, ch⟩

/-- The canonical solved state from the `CubeModel` constructor:
up `W`, down `Y`, front `R`, back `O`, left `G`, right `B`. -/
def solvedState : CubeState :=
  ⟨uniformFace 'W', uniformFace 'Y', uniformFace 'R',
   uniformFace 'O', uniformFace 'G', uniformFace 'B'⟩

/-- Clockwise sticker permutation of one face: `new[i] = old[m[i]]` with
`m = [2,5,8,1,4,7,0,3,6]` (from `CubeModel._rotateFace`). -/
def rotateCW (f : Face) : Face :=
  ⟨f.s2, f.s5, f.s8, f.s1, f.s4, f.s7, f.s0, f.s3, f.s6⟩

/-- Counter-clockwise sticker permutation of one face, mapping
`[6,3,0,7,4,1,8,5,2]` (from `CubeModel._rotateFace`). -/
def rotateCCW (f : Face) : Face :=
  ⟨f.s6, f.s3, f.s0, f.s7, f.s4, f.s1, f.s8, f.s5, f.s2⟩

/-- `CubeModel._rotateFace(face, clockwise)`: permute the stickers of the
named face and leave every other face untouched. -/
def rotateFace (c : CubeState) (name : String) (clockwise : Bool) : CubeState :=
  match name with
  | "up" => { c with up := if clockwise then rotateCW c.up else rotateCCW c.up }
  | "down" => { c with down := if clockwise then rotateCW c.down else rotateCCW c.down }
  | "front" => { c with front := if clockwise then rotateCW c.front else rotateCCW c.front }
  | "back" => { c with back := if clockwise then rotateCW c.back else rotateCCW c.back }
  | "left" => { c with left := if clockwise then rotateCW c.left else rotateCCW c.left }
  | "right" => { c with right := if clockwise then rotateCW c.right else rotateCCW c.right }
  | _ => c

/-- `CubeModel._performMove(face)`: one clockwise quarter turn of the named
face; rotates the face's own stickers and cycles the twelve adjacent
stickers.  A face character outside `U,D,L,R,F,B` falls through the JS
`switch` and leaves the state unchanged. -/
def performMove (face : Char) (c : CubeState) : CubeState :=
  match face with
  | 'F' =>
    let r := rotateFace c "front" true
    { r with
      up := { c.up with s6 := c.left.s8, s7 := c.left.s5, s8 := c.left.s2 },
      left := { c.left with s2 := c.down.s0, s5 := c.down.s1, s8 := c.down.s2 },
      down := { c.down with s0 := c.right.s6, s1 := c.right.s3, s2 := c.right.s0 },
      right := { c.right with s0 := c.up.s6, s3 := c.up.s7, s6 := c.up.s8 } }
  | 'B' =>
    let r := rotateFace c "back" true
    { r with
      up := { c.up with s0 := c.right.s2, s1 := c.right.s5, s2 := c.right.s8 },
      right := { c.right with s2 := c.down.s8, s5 := c.down.s7, s8 := c.down.s6 },
      down := { c.down with s6 := c.left.s0, s7 := c.left.s3, s8 := c.left.s6 },
      left := { c.left with s0 := c.up.s2, s3 := c.up.s1, s6 := c.up.s0 } }
  | 'U' =>
    let r := rotateFace c "up" true
    { r with
      front := { c.front with s0 := c.right.s0, s1 := c.right.s1, s2 := c.right.s2 },
      right := { c.right with s0 := c.back.s0, s1 := c.back.s1, s2 := c.back.s2 },
      back := { c.back with s0 := c.left.s0, s1 := c.left.s1, s2 := c.left.s2 },
      left := { c.left with s0 := c.front.s0, s1 := c.front.s1, s2 := c.front.s2 } }
  | 'D' =>
    let r := rotateFace c "down" true
    { r with
      front := { c.front with s6 := c.left.s6, s7 := c.left.s7, s8 := c.left.s8 },
      left := { c.left with s6 := c.back.s6, s7 := c.back.s7, s8 := c.back.s8 },
      back := { c.back with s6 := c.right.s6, s7 := c.right.s7, s8 := c.right.s8 },
      right := { c.right with s6 := c.front.s6, s7 := c.front.s7, s8 := c.front.s8 } }
  | 'L' =>
    let r := rotateFace c "left" true
    { r with
      up := { c.up with s0 := c.back.s8, s3 := c.back.s5, s6 := c.back.s2 },
      back := { c.back with s2 := c.down.s6, s5 := c.down.s3, s8 := c.down.s0 },
      down := { c.down with s0 := c.front.s0, s3 := c.front.s3, s6 := c.front.s6 },
      front := { c.front with s0 := c.up.s0, s3 := c.up.s3, s6 := c.up.s6 } }
  | 'R' =>
    let r := rotateFace c "right" true
    { r with
      up := { c.up with s2 := c.front.s2, s5 := c.front.s5, s8 := c.front.s8 },
      front := { c.front with s2 := c.down.s2, s5 := c.down.s5, s8 := c.down.s8 },
      down := { c.down with s2 := c.back.s6, s5 := c.back.s3, s8 := c.back.s0 },
      back := { c.back with s0 := c.up.s8, s3 := c.up.s5, s6 := c.up.s2 } }
  | _ => c

/-- Iterated clockwise quarter turns: the `for` loop in `CubeModel._move`. -/
def pmIter : Nat → Char → CubeState → CubeState
  | 0, _, c => c
  | n + 1, face, c => pmIter n face (performMove face c)

/-- `CubeModel._move(face, prime, double)`: 2 quarter turns for a double
move, 3 for a prime move, otherwise 1. -/
def moveN (c : CubeState) (face : Char) (prime dbl : Bool) : CubeState :=
  pmIter (if dbl then 2 else if prime then 3 else 1) face c

/-- The apostrophe character, the prime marker in move notation. -/
def pCh : Char := Char.ofNat 39

/-- Token processing of one move string inside `CubeModel.executeAlgorithm`:
face is the upper-cased first character, prime and double are substring
tests.  An empty token never reaches this point in the JS code. -/
def applyToken (c : CubeState) (tok : String) : CubeState :=
  match tok.toList.head? with
  | none => c
  | some ch => moveN c ch.toUpper (tok.toList.contains pCh) (tok.toList.contains '2')

/-- Helper for splitting on single spaces, accumulating the current token
in reverse: the semantics of JS `split(' ')`, which keeps empty pieces
between consecutive separators. -/
def splitSpacesAux : List Char → List Char → List String
  | [], acc => [String.mk acc.reverse]
  | c :: rest, acc =>
    if c = ' ' then String.mk acc.reverse :: splitSpacesAux rest []
    else splitSpacesAux rest (c :: acc)

/-- `algorithm.split(' ')`. -/
def splitSpaces (s : String) : List String := splitSpacesAux s.toList []

/-- `algorithm.split(' ').filter(m => m)`: split on single spaces and drop
empty tokens. -/
def tokenize (alg : String) : List String :=
  (splitSpaces alg).filter (fun t => t != "")

/-- Replaying a list of move tokens left to right. -/
def replay (c : CubeState) (l : List String) : CubeState :=
  l.foldl applyToken c

/-- `CubeModel.executeAlgorithm(algorithm)`. -/
def executeAlgorithm (c : CubeState) (alg : String) : CubeState :=
  replay c (tokenize alg)

/-- The six face letters recognised by `_performMove`. -/
def faceLetters : List Char := ['U', 'D', 'L', 'R', 'F', 'B']

/-- The six face names keying `CubeModel.state`. -/
def faceNames : List String := ["up", "down", "front", "back", "left", "right"]

/-- The six centre stickers, the colours that identify each face. -/
def centers (c : CubeState) : List Char :=
  [c.up.s4, c.down.s4, c.front.s4, c.back.s4, c.left.s4, c.right.s4]

theorem pm4 (f : Char) (hf : f ∈ faceLetters) (c : CubeState) :
    performMove f (performMove f (performMove f (performMove f c))) = c := by
  fin_cases hf <;> rfl

theorem performMove_not_face (ch : Char) (hch : ch ∉ faceLetters) (c : CubeState) :
    performMove ch c = c := by
  unfold performMove
  split <;> first | rfl | exact absurd (by decide) hch

theorem centers_rotateFace (c : CubeState) (name : String) (cw : Bool) :
    centers (rotateFace c name cw) = centers c := by
  unfold rotateFace
  split <;> (cases cw <;> rfl)

theorem centers_performMove (f : Char) (c : CubeState) :
    centers (performMove f c) = centers c := by
  unfold performMove
  split <;> rfl

theorem centers_pmIter (n : Nat) (f : Char) (c : CubeState) :
    centers (pmIter n f c) = centers c := by
  induction n generalizing c with
  | zero => rfl
  | succ n ih =>
    show centers (pmIter n f (performMove f c)) = centers c
    rw [ih, centers_performMove]

theorem centers_applyToken (c : CubeState) (tok : String) :
    centers (applyToken c tok) = centers c := by
  unfold applyToken
  cases tok.toList.head? with
  | none => rfl
  | some ch => exact centers_pmIter _ _ _

theorem centers_replay (l : List String) (c : CubeState) :
    centers (replay c l) = centers c := by
  induction l generalizing c with
  | nil => rfl
  | cons t ts ih =>
    show centers (replay (applyToken c t) ts) = centers c
    rw [ih, centers_applyToken]

theorem centers_executeAlgorithm (c : CubeState) (alg : String) :
    centers (executeAlgorithm c alg) = centers c :=
  centers_replay _ _

theorem pmIter_add (a b : Nat) (f : Char) (c : CubeState) :
    pmIter (a + b) f c = pmIter a f (pmIter b f c) := by
  induction b generalizing c with
  | zero => rfl
  | succ b ih =>
    show pmIter (a + b + 1) f c = pmIter a f (pmIter b f (performMove f c))
    rw [← ih]
    rfl

theorem pmIter_four (f : Char) (hf : f ∈ faceLetters) (c : CubeState) :
    pmIter 4 f c = c :=
  pm4 f hf c

theorem pmIter_mod (f : Char) (hf : f ∈ faceLetters) :
    ∀ (n : Nat) (c : CubeState), pmIter n f c = pmIter (n % 4) f c := by
  intro n
  induction n using Nat.strong_induction_on with
  | _ n ih =>
    intro c
    by_cases h : n < 4
    · rw [Nat.mod_eq_of_lt h]
    · have h4 : n = n - 4 + 4 := by omega
      rw [h4, pmIter_add, pmIter_four f hf, ih (n - 4) (by omega)]
      congr 1
      omega

theorem pmIter_not_face (n : Nat) (ch : Char) (hch : ch ∉ faceLetters) (c : CubeState) :
    pmIter n ch c = c := by
  induction n generalizing c with
  | zero => rfl
  | succ n ih =>
    show pmIter n ch (performMove ch c) = c
    rw [performMove_not_face ch hch, ih]

theorem applyToken_not_face (c : CubeState) (tok : String) (ch : Char)
    (hh : tok.toList.head? = some ch) (hch : ch.toUpper ∉ faceLetters) :
    applyToken c tok = c := by
  unfold applyToken
  rw [hh]
  exact pmIter_not_face _ _ hch _

theorem sanity_F2 : executeAlgorithm solvedState "F2" ≠ solvedState := by decide

/-- Solver working state: the private cube copy `this.cube` and the
accumulated `this.solution` log of `CubeSolverJS`. -/
structure SolverSt where
  cube : CubeState
  solution : List String
deriving DecidableEq, Repr

/-- `CubeSolverJS.execute(moves)`: apply the algorithm to the working cube
and append the split tokens to the solution log. -/
def execute (alg : String) (s : SolverSt) : SolverSt :=
  ⟨executeAlgorithm s.cube alg, s.solution ++ tokenize alg⟩

/-- All nine stickers of a face equal its centre colour. -/
def faceUniform (f : Face) : Bool :=
  (f.s0 == f.s4) && (f.s1 == f.s4) && (f.s2 == f.s4) && (f.s3 == f.s4) &&
  (f.s4 == f.s4) && (f.s5 == f.s4) && (f.s6 == f.s4) && (f.s7 == f.s4) && (f.s8 == f.s4)

/-- `CubeSolverJS.isSolved()`: every face is uniformly its centre colour. -/
def isSolvedState (c : CubeState) : Bool :=
  faceUniform c.up && faceUniform c.down && faceUniform c.front &&
  faceUniform c.back && faceUniform c.left && faceUniform c.right

/-- Fuel-indexed model of a JS `while (g) body` loop with no iteration
bound: `none` means the loop did not finish within `fuel` iterations. -/
def whileFuel {α : Type} (g : α → Bool) (b : α → α) : Nat → α → Option α
  | 0, s => if g s then none else some s
  | n + 1, s => if g s then whileFuel g b n (b s) else some s

theorem whileFuel_none {α : Type} (g : α → Bool) (b : α → α)
    (hinv : ∀ x, g x = true → g (b x) = true) :
    ∀ (n : Nat) (x : α), g x = true → whileFuel g b n x = none := by
  intro n
  induction n with
  | zero => intro x hx; simp [whileFuel, hx]
  | succ n ih =>
    intro x hx
    simp only [whileFuel, hx, if_true]
    exact ih _ (hinv x hx)

theorem whileFuel_entry_false {α : Type} (g : α → Bool) (b : α → α)
    (n : Nat) (x : α) (hx : g x = false) : whileFuel g b n x = some x := by
  cases n <;> simp [whileFuel, hx]

theorem whileFuel_inv {α : Type} (g : α → Bool) (b : α → α) (P : α → Prop)
    (hb : ∀ x, P x → P (b x)) :
    ∀ (n : Nat) (x y : α), P x → whileFuel g b n x = some y → P y := by
  intro n
  induction n with
  | zero =>
    intro x y hx hw
    simp only [whileFuel] at hw
    split at hw
    · exact absurd hw (by simp)
    · cases hw; exact hx
  | succ n ih =>
    intro x y hx hw
    simp only [whileFuel] at hw
    split at hw
    · exact ih _ _ (hb x hx) hw
    · cases hw; exact hx

/-- Move-string constants used by the solver phases (JS string literals). -/
def strU : String := "U"

def strY : String := "y"

def algF2 : String := "F2"

def algRpDpRD : String := String.mk ['R', pCh, ' ', 'D', pCh, ' ', 'R', ' ', 'D']

def algRightIns : String :=
  String.mk ['U', ' ', 'R', ' ', 'U', pCh, ' ', 'R', pCh, ' ', 'U', pCh, ' ',
             'F', pCh, ' ', 'U', ' ', 'F']

def algLeftIns : String :=
  String.mk ['U', pCh, ' ', 'L', pCh, ' ', 'U', ' ', 'L', ' ', 'U', ' ',
             'F', ' ', 'U', pCh, ' ', 'F', pCh]

def algFRURpUpFp : String :=
  String.mk ['F', ' ', 'R', ' ', 'U', ' ', 'R', pCh, ' ', 'U', pCh, ' ', 'F', pCh]

def algEdgePerm : String :=
  String.mk ['R', ' ', 'U', ' ', 'R', pCh, ' ', 'U', ' ', 'R', ' ', 'U', '2', ' ', 'R', pCh]

def algCornerPerm : String :=
  String.mk ['U', ' ', 'R', ' ', 'U', pCh, ' ', 'L', pCh, ' ', 'U', ' ',
             'R', pCh, ' ', 'U', pCh, ' ', 'L']

/-- One white/colour sticker-pair test in `solveWhiteCross`. -/
def pairMatch (a b color : Char) : Bool :=
  (a == 'W' && b == color) || (b == 'W' && a == color)

/-- Scan of the twelve edge positions in `solveWhiteCross`. -/
def edgeHasPair (c : CubeState) (color : Char) : Bool :=
  pairMatch c.up.s1 c.back.s1 color || pairMatch c.up.s3 c.left.s1 color ||
  pairMatch c.up.s5 c.right.s1 color || pairMatch c.up.s7 c.front.s1 color ||
  pairMatch c.down.s1 c.front.s7 color || pairMatch c.down.s3 c.left.s7 color ||
  pairMatch c.down.s5 c.right.s7 color || pairMatch c.down.s7 c.back.s7 color ||
  pairMatch c.front.s3 c.left.s5 color || pairMatch c.front.s5 c.right.s3 color ||
  pairMatch c.back.s3 c.right.s5 color || pairMatch c.back.s5 c.left.s3 color

/-- The bounded `while (!found && attempts < 20)` search of `solveWhiteCross`:
check for the edge, else turn `U` and retry. -/
def crossSearch (color : Char) : Nat → SolverSt → SolverSt
  | 0, s => s
  | n + 1, s =>
    if edgeHasPair s.cube color then s else crossSearch color n (execute strU s)

/-- The side colours iterated by `solveWhiteCross`, in JS object-entry
order: `{R: front, B: right, O: back, G: left}`. -/
def crossColors : List Char := ['R', 'B', 'O', 'G']

/-- `solveWhiteCross()`: for each side colour, search up to 20 times, then
unconditionally execute `F2`. -/
def solveWhiteCross (s : SolverSt) : SolverSt :=
  crossColors.foldl (fun acc color => execute algF2 (crossSearch color 20 acc)) s

/-- Guard of the slot-positioning loop of `solveWhiteCorners`:
`front[4] !== frontColor || right[4] !== leftColor`. -/
def slotGuard (f l : Char) (s : SolverSt) : Bool :=
  !(s.cube.front.s4 == f && s.cube.right.s4 == l)

/-- The unbounded `while` loop of `solveWhiteCorners` that executes the
whole-cube token `y` until the target slot faces front-right. -/
def slotLoop (f l : Char) (fuel : Nat) (s : SolverSt) : Option SolverSt :=
  whileFuel (slotGuard f l) (execute strY) fuel s

/-- Membership test of the three top-front-right stickers in
`solveWhiteCorners`. -/
def cornerFound (f l : Char) (s : SolverSt) : Bool :=
  let u := [s.cube.up.s8, s.cube.front.s2, s.cube.right.s0]
  u.contains 'W' && u.contains f && u.contains l

/-- The bounded (5 attempts) `U` search for the corner in
`solveWhiteCorners`. -/
def cornerSearch (f l : Char) : Nat → SolverSt → SolverSt
  | 0, s => s
  | n + 1, s =>
    if cornerFound f l s then s else cornerSearch f l n (execute strU s)

/-- Guard of the corner-insertion loop:
`down[2] !== white || front[8] !== frontColor`. -/
def insertGuard (f : Char) (s : SolverSt) : Bool :=
  !(s.cube.down.s2 == 'W' && s.cube.front.s8 == f)

/-- The unbounded corner-insertion `while` loop executing `R' D' R D`. -/
def insertLoop (f : Char) (fuel : Nat) (s : SolverSt) : Option SolverSt :=
  whileFuel (insertGuard f) (execute algRpDpRD) fuel s

/-- One iteration of the `forEach` over corner colour pairs in
`solveWhiteCorners`. -/
def cornerPair (fuel : Nat) (f l : Char) (s : SolverSt) : Option SolverSt :=
  (slotLoop f l fuel s).bind fun s1 => insertLoop f fuel (cornerSearch f l 5 s1)

/-- `solveWhiteCorners()` over the four corner pairs
`[[R,G],[B,R],[O,B],[G,O]]`. -/
def solveWhiteCorners (fuel : Nat) (s : SolverSt) : Option SolverSt :=
  (cornerPair fuel 'R' 'G' s).bind fun s1 =>
  (cornerPair fuel 'B' 'R' s1).bind fun s2 =>
  (cornerPair fuel 'O' 'B' s2).bind fun s3 =>
  cornerPair fuel 'G' 'O' s3

/-- The eight middle-layer edge checks of `solveMiddleLayer`. -/
def middleEdgesOk (c : CubeState) : Bool :=
  (c.front.s3 == c.front.s4) && (c.front.s5 == c.front.s4) &&
  (c.right.s3 == c.right.s4) && (c.right.s5 == c.right.s4) &&
  (c.back.s3 == c.back.s4) && (c.back.s5 == c.back.s4) &&
  (c.left.s3 == c.left.s4) && (c.left.s5 == c.left.s4)

/-- The bounded (4 attempts) top-layer edge search of `solveMiddleLayer`. -/
def midEdgeSearch : Nat → SolverSt → Bool × SolverSt
  | 0, s => (false, s)
  | n + 1, s =>
    if s.cube.up.s7 != 'Y' && s.cube.front.s1 != 'Y' then (true, s)
    else midEdgeSearch n (execute strU s)

/-- Guard of the unbounded `while (front[1] !== front[4])` alignment loops
in `solveMiddleLayer` and `alignTopFace`. -/
def alignGuard (s : SolverSt) : Bool := !(s.cube.front.s1 == s.cube.front.s4)

/-- The unbounded `U`-alignment loop. -/
def alignLoop (fuel : Nat) : SolverSt → Option SolverSt :=
  whileFuel alignGuard (execute strU) fuel

/-- The 12-attempt outer loop of `solveMiddleLayer`, including the
pop-out/`continue` path and the fall-through after the `y` branch. -/
def middleIter (fuel : Nat) : Nat → SolverSt → Option SolverSt
  | 0, s => some s
  | n + 1, s =>
    if middleEdgesOk s.cube then some s
    else
      let p := midEdgeSearch 4 s
      if !p.1 && (p.2.cube.front.s5 != p.2.cube.front.s4 ||
                  p.2.cube.right.s3 != p.2.cube.right.s4) then
        middleIter fuel n (execute algRightIns p.2)
      else
        let s2 := if !p.1 then execute strY p.2 else p.2
        match alignLoop fuel s2 with
        | none => none
        | some s3 =>
          middleIter fuel n
            (if s3.cube.up.s7 == s3.cube.right.s4 then execute algRightIns s3
             else execute algLeftIns s3)

/-- `solveMiddleLayer()` with its 12-attempt bound. -/
def solveMiddleLayer (fuel : Nat) (s : SolverSt) : Option SolverSt :=
  middleIter fuel 12 s

/-- The four last-layer edge flags `[isUp(1), isUp(3), isUp(5), isUp(7)]`
of `solveYellowCross`. -/
def yellowEdgeFlags (c : CubeState) : List Bool :=
  [c.up.s1 == 'Y', c.up.s3 == 'Y', c.up.s5 == 'Y', c.up.s7 == 'Y']

/-- The bounded (4 attempts) L-shape loop of `solveYellowCross`. -/
def lShapeLoop : Nat → SolverSt → SolverSt
  | 0, s => s
  | n + 1, s =>
    if s.cube.up.s3 == 'Y' && s.cube.up.s7 == 'Y' then execute algFRURpUpFp s
    else lShapeLoop n (execute strU s)

/-- The bounded (2 attempts) line-shape loop of `solveYellowCross`. -/
def lineLoop : Nat → SolverSt → SolverSt
  | 0, s => s
  | n + 1, s =>
    if s.cube.up.s3 == 'Y' && s.cube.up.s5 == 'Y' then execute algFRURpUpFp s
    else lineLoop n (execute strU s)

/-- `solveYellowCross()`. -/
def solveYellowCross (s : SolverSt) : SolverSt :=
  let cnt := (yellowEdgeFlags s.cube).count true
  if cnt == 4 then s
  else
    let s1 := if cnt == 0 then execute algFRURpUpFp s else s
    lineLoop 2 (lShapeLoop 4 s1)

/-- The bounded (4 attempts) initial alignment of `positionYellowEdges`. -/
def pyeAlign : Nat → SolverSt → SolverSt
  | 0, s => s
  | n + 1, s =>
    if s.cube.front.s1 == s.cube.front.s4 then s
    else pyeAlign n (execute strU s)

/-- The `for j < 4` counting loop of `positionYellowEdges`: count matches
and execute `y` each time. -/
def pyeCount : Nat → Nat × SolverSt → Nat × SolverSt
  | 0, p => p
  | n + 1, p =>
    let cnt := if p.2.cube.front.s1 == p.2.cube.front.s4 then p.1 + 1 else p.1
    pyeCount n (cnt, execute strY p.2)

/-- Guard of the unbounded `while (back[1] !== back[4])` loop of
`positionYellowEdges`. -/
def backGuard (s : SolverSt) : Bool := !(s.cube.back.s1 == s.cube.back.s4)

/-- That unbounded loop, whose body executes the no-op token `y`. -/
def backLoop (fuel : Nat) : SolverSt → Option SolverSt :=
  whileFuel backGuard (execute strY) fuel

/-- The 5-attempt outer loop of `positionYellowEdges`. -/
def pyeOuter (fuel : Nat) : Nat → SolverSt → Option SolverSt
  | 0, s => some s
  | n + 1, s =>
    let p := pyeCount 4 (0, s)
    if p.1 == 4 then some p.2
    else
      match backLoop fuel p.2 with
      | none => none
      | some s2 => pyeOuter fuel n (execute algEdgePerm s2)

/-- `positionYellowEdges()`. -/
def positionYellowEdges (fuel : Nat) (s : SolverSt) : Option SolverSt :=
  pyeOuter fuel 5 (pyeAlign 4 s)

/-- One corner test of `areCornersPositioned`, with JS `Set` semantics:
distinct-count 3 on both triples and empty difference. -/
def acpCheck (c : CubeState) : Bool :=
  let expected := [c.front.s4, c.right.s4, 'Y']
  let actual := [c.front.s2, c.right.s0, c.up.s8]
  (expected.dedup.length == 3) && (actual.dedup.length == 3) &&
  !(expected.any fun x => !(actual.contains x))

/-- The four-way loop of `areCornersPositioned`, which executes `y` after
each successful check (a side effect inside the predicate). -/
def acpLoop : Nat → SolverSt → Bool × SolverSt
  | 0, s => (true, s)
  | n + 1, s =>
    if acpCheck s.cube then acpLoop n (execute strY s)
    else (false, s)

/-- `areCornersPositioned()`. -/
def areCornersPositioned (s : SolverSt) : Bool × SolverSt := acpLoop 4 s

/-- The unbounded `while (!areCornersPositioned())` loop of
`positionYellowCorners`. -/
def pycLoop : Nat → SolverSt → Option SolverSt
  | 0, s =>
    let p := areCornersPositioned s
    if p.1 then some p.2 else none
  | n + 1, s =>
    let p := areCornersPositioned s
    if p.1 then some p.2 else pycLoop n (execute algCornerPerm p.2)

/-- `positionYellowCorners()`. -/
def positionYellowCorners (fuel : Nat) (s : SolverSt) : Option SolverSt :=
  pycLoop fuel s

/-- `up.filter(c => c === 'Y').length` in `orientYellowCorners`. -/
def upYellowCount (c : CubeState) : Nat :=
  ([c.up.s0, c.up.s1, c.up.s2, c.up.s3, c.up.s4,
    c.up.s5, c.up.s6, c.up.s7, c.up.s8].count 'Y')

/-- The bounded (max 4 repetitions) inner loop of `orientYellowCorners`. -/
def oycInner : Nat → SolverSt → SolverSt
  | 0, s => s
  | n + 1, s =>
    let s1 := execute algRpDpRD s
    if s1.cube.up.s8 == 'Y' then s1 else oycInner n s1

/-- Guard of the unbounded outer loop of `orientYellowCorners`. -/
def oycGuard (s : SolverSt) : Bool := upYellowCount s.cube != 9

/-- Body of that loop: orient the current corner if needed, then `U`. -/
def oycBody (s : SolverSt) : SolverSt :=
  execute strU (if s.cube.up.s8 != 'Y' then oycInner 4 s else s)

/-- `orientYellowCorners()`. -/
def orientYellowCorners (fuel : Nat) : SolverSt → Option SolverSt :=
  whileFuel oycGuard oycBody fuel

/-- `alignTopFace()`: unbounded `U` loop until `front[1] === front[4]`. -/
def alignTopFace (fuel : Nat) : SolverSt → Option SolverSt :=
  whileFuel alignGuard (execute strU) fuel

/-- Turn count of a token in `simplifyMoves`, decided by `endsWith`. -/
def turnsOf (m : String) : Nat :=
  if m.toList.getLast? == some pCh then 3
  else if m.toList.getLast? == some '2' then 2
  else 1

/-- The merged token(s) pushed by `simplifyMoves` for a same-face pair:
total turn count 0 drops both moves, 1 pushes the bare face, 2 a double,
3 a prime.  The `none` face arises only for empty tokens, which the
solver never produces. -/
def mergeTok (f : Option Char) (total : Nat) : List String :=
  match f with
  | none => if total == 0 then [] else [""]
  | some c =>
    if total == 0 then []
    else if total == 1 then [String.mk [c]]
    else if total == 2 then [String.mk [c, '2']]
    else [String.mk [c, pCh]]

/-- One scanning pass of `simplifyMoves`: merge adjacent tokens with equal
first characters, returning the new list and the `changed` flag. -/
def simplifyPass : List String → List String × Bool
  | m1 :: m2 :: rest =>
    if m1.toList.head? == m2.toList.head? then
      (mergeTok m1.toList.head? ((turnsOf m1 + turnsOf m2) % 4) ++ (simplifyPass rest).1,
       true)
    else
      (m1 :: (simplifyPass (m2 :: rest)).1, (simplifyPass (m2 :: rest)).2)
  | l => (l, false)

theorem simplifyPass_len_le : ∀ l : List String, (simplifyPass l).1.length ≤ l.length
  | [] => by simp [simplifyPass]
  | [m] => by simp [simplifyPass]
  | m1 :: m2 :: rest => by
    have ih1 := simplifyPass_len_le rest
    have ih2 := simplifyPass_len_le (m2 :: rest)
    unfold simplifyPass
    split
    · have hm : (mergeTok m1.toList.head? ((turnsOf m1 + turnsOf m2) % 4)).length ≤ 1 := by
        unfold mergeTok
        split <;> (repeat' split) <;> simp
      simp only [List.length_append, List.length_cons]
      omega
    · simp only [List.length_cons] at ih2 ⊢
      omega

theorem simplifyPass_len_lt :
    ∀ l : List String, (simplifyPass l).2 = true → (simplifyPass l).1.length < l.length
  | [] => by simp [simplifyPass]
  | [m] => by simp [simplifyPass]
  | m1 :: m2 :: rest => by
    have ih1 := simplifyPass_len_le rest
    have ih2 := simplifyPass_len_lt (m2 :: rest)
    unfold simplifyPass
    split
    · intro _
      have hm : (mergeTok m1.toList.head? ((turnsOf m1 + turnsOf m2) % 4)).length ≤ 1 := by
        unfold mergeTok
        split <;> (repeat' split) <;> simp
      simp only [List.length_append, List.length_cons]
      omega
    · intro hch
      simp only at hch
      have hlt := ih2 hch
      simp only [List.length_cons] at hlt ⊢
      omega

/-- `simplifyMoves(moves)`: repeat the scanning pass until no change; the
`length < 2` early exit is checked at the top of each outer iteration. -/
def simplifyMoves (l : List String) : List String :=
  if l.length < 2 then l
  else if h : (simplifyPass l).2 = true then simplifyMoves (simplifyPass l).1
  else (simplifyPass l).1
termination_by l.length
decreasing_by exact simplifyPass_len_lt l h

/-- The phase pipeline of `solve()` after the initial solved check. -/
def runPhases (fuel : Nat) (s : SolverSt) : Option SolverSt :=
  (solveWhiteCorners fuel (solveWhiteCross s)).bind fun s2 =>
  (solveMiddleLayer fuel s2).bind fun s3 =>
  (positionYellowEdges fuel (solveYellowCross s3)).bind fun s5 =>
  (positionYellowCorners fuel s5).bind fun s6 =>
  (orientYellowCorners fuel s6).bind fun s7 =>
  alignTopFace fuel s7

/-- `CubeSolverJS.solve()` on a cube state, with all unbounded `while`
loops fuelled: `some moves` is a completed run returning the simplified
solution, `none` means some unbounded loop ran past the fuel. -/
def solveFuel (fuel : Nat) (c : CubeState) : Option (List String) :=
  if isSolvedState c then some []
  else (runPhases fuel ⟨c, []⟩).map fun s => simplifyMoves s.solution

theorem whileFuel_some_guard_false {α : Type} (g : α → Bool) (b : α → α) :
    ∀ (n : Nat) (x y : α), whileFuel g b n x = some y → g y = false := by
  intro n
  induction n with
  | zero =>
    intro x y hw
    simp only [whileFuel] at hw
    split at hw
    · exact absurd hw (by simp)
    · rename_i hg
      cases hw
      simpa using hg
  | succ n ih =>
    intro x y hw
    simp only [whileFuel] at hw
    split at hw
    · exact ih _ _ hw
    · rename_i hg
      cases hw
      simpa using hg

theorem cube_execute_y (s : SolverSt) : (execute strY s).cube = s.cube := rfl

theorem front4_execute (alg : String) (s : SolverSt) :
    (execute alg s).cube.front.s4 = s.cube.front.s4 := by
  have h := centers_executeAlgorithm s.cube alg
  simp only [centers, List.cons.injEq, and_true] at h
  exact h.2.2.1

theorem slotGuard_execute_y (f l : Char) (s : SolverSt) :
    slotGuard f l (execute strY s) = slotGuard f l s := by
  unfold slotGuard
  rw [cube_execute_y]

theorem slotLoop_none (f l : Char) (s : SolverSt) (h : slotGuard f l s = true) :
    ∀ fuel : Nat, slotLoop f l fuel s = none := by
  intro fuel
  exact whileFuel_none _ _ (fun x hx => by rwa [slotGuard_execute_y]) fuel s h

theorem front4_cornerSearch (f l : Char) :
    ∀ (n : Nat) (s : SolverSt),
      (cornerSearch f l n s).cube.front.s4 = s.cube.front.s4 := by
  intro n
  induction n with
  | zero => intro s; rfl
  | succ n ih =>
    intro s
    show (if cornerFound f l s then s else cornerSearch f l n (execute strU s)).cube.front.s4 = _
    split
    · rfl
    · rw [ih, front4_execute]

theorem front4_insertLoop (f : Char) (fuel : Nat) (s s1 : SolverSt)
    (h : insertLoop f fuel s = some s1) :
    s1.cube.front.s4 = s.cube.front.s4 := by
  exact whileFuel_inv _ _ (fun x => x.cube.front.s4 = s.cube.front.s4)
    (fun x hx => by
      show (execute algRpDpRD x).cube.front.s4 = s.cube.front.s4
      rw [front4_execute]
      exact hx) fuel s s1 rfl h

theorem cornerPair_some_front4 (fuel : Nat) (f l : Char) (s s1 : SolverSt)
    (h : cornerPair fuel f l s = some s1) : s1.cube.front.s4 = f := by
  unfold cornerPair at h
  cases hs : slotLoop f l fuel s with
  | none => rw [hs] at h; exact absurd h (by simp)
  | some sa =>
    rw [hs] at h
    simp only [Option.some_bind] at h
    have hg := whileFuel_some_guard_false _ _ fuel s sa hs
    unfold slotGuard at hg
    simp at hg
    rw [front4_insertLoop f fuel _ _ h, front4_cornerSearch]
    exact hg.1

theorem cornerPair_none_of_front4 (fuel : Nat) (f l : Char) (s : SolverSt)
    (h : s.cube.front.s4 ≠ f) : cornerPair fuel f l s = none := by
  unfold cornerPair
  rw [slotLoop_none]
  · rfl
  · unfold slotGuard
    simp only [Bool.not_eq_eq_eq_not, Bool.not_true, Bool.and_eq_false_iff]
    left
    simpa using h

theorem solveWhiteCorners_none (fuel : Nat) (s : SolverSt) :
    solveWhiteCorners fuel s = none := by
  unfold solveWhiteCorners
  cases h1 : cornerPair fuel 'R' 'G' s with
  | none => rfl
  | some s1 =>
    have hf := cornerPair_some_front4 fuel 'R' 'G' s s1 h1
    simp only [Option.some_bind]
    rw [cornerPair_none_of_front4 fuel 'B' 'R' s1 (by rw [hf]; decide)]
    rfl

theorem runPhases_none (fuel : Nat) (s : SolverSt) : runPhases fuel s = none := by
  unfold runPhases
  rw [solveWhiteCorners_none]
  rfl

/-- Complete characterization of the fuelled `solve()`: it returns (with
the empty solution) exactly on already-solved inputs; on every other
input the slot-positioning loop of `solveWhiteCorners` never finishes,
whatever the fuel. -/
theorem solveFuel_eq (fuel : Nat) (c : CubeState) :
    solveFuel fuel c = if isSolvedState c then some [] else none := by
  unfold solveFuel
  split
  · rfl
  · rw [runPhases_none]
    rfl

/-- The move grammar of spec section 3: a face letter optionally suffixed
with a prime or a 2. -/
def isMoveToken (t : String) : Bool :=
  match t.toList with
  | [f] => faceLetters.contains f
  | [f, m] => faceLetters.contains f && (m == pCh || m == '2')
  | _ => false

/-- The worker response field `move_count: solution.length`. -/
def workerMoveCount (solution : List String) : Nat := solution.length

/-- The spec's concrete scenario state: the solved cube with `F2` applied. -/
def stateF2 : CubeState := executeAlgorithm solvedState "F2"

/-- The solver state reached by `solve()` on `stateF2` when it enters
`solveWhiteCorners` (after the solved check and the white-cross phase). -/
def cornersEntrySt : SolverSt := solveWhiteCross ⟨stateF2, []⟩

/-- The slot-positioning loop of `solveWhiteCorners` runs forever on `s`:
every fuel is exhausted. -/
def slotLoopDiverges (f l : Char) (s : SolverSt) : Prop :=
  ∀ fuel : Nat, slotLoop f l fuel s = none

/-- The move-wise inverse of one token: swap bare and prime-suffixed
moves, keep 2-suffixed moves. -/
def invertToken (t : String) : String :=
  match t.toList with
  | [f] => String.mk [f, pCh]
  | [f, m] => if m == pCh then String.mk [f] else t
  | _ => t

/-- The move-wise inverse of an algorithm: reversed order, each token
inverted. -/
def invertAlg (l : List String) : List String := l.reverse.map invertToken

/-- Two-cell heap model of the aliasing structure of
`new CubeSolverJS(cubeModel)` followed by `solve()`: the constructor
deep-copies the caller's state (`JSON.parse(JSON.stringify(...))`) into
the solver's private cell, and every mutation during solving is a write
to `this.cube.state` or `this.solution`, never to the caller's cell. -/
structure SolveWorld where
  callerCube : CubeState
  solverCube : CubeState
  solutionLog : List String
deriving DecidableEq, Repr

/-- The `CubeSolverJS` constructor: solver cell initialised with a copy of
the caller's value, empty solution log. -/
def newSolverWorld (caller : CubeState) : SolveWorld := ⟨caller, caller, []⟩

/-- `solve()` on the heap model: all phase work reads and writes the
solver cell; the caller cell is carried through unchanged, exactly as the
JS mutations target `this.cube` only. -/
def runSolveWorld (fuel : Nat) (w : SolveWorld) : Option (List String × SolveWorld) :=
  if isSolvedState w.solverCube then some ([], w)
  else
    match runPhases fuel ⟨w.solverCube, w.solutionLog⟩ with
    | none => none
    | some s => some (simplifyMoves s.solution, ⟨w.callerCube, s.cube, s.solution⟩)

theorem applyToken_head_none (c : CubeState) (tok : String)
    (h : tok.toList.head? = none) : applyToken c tok = c := by
  unfold applyToken
  rw [h]

theorem replay_not_face (l : List String)
    (h : ∀ tok ∈ l, ∀ ch : Char, tok.toList.head? = some ch → ch.toUpper ∉ faceLetters) :
    ∀ c : CubeState, replay c l = c := by
  induction l with
  | nil => intro c; rfl
  | cons t ts ih =>
    intro c
    show replay (applyToken c t) ts = c
    have ht : applyToken c t = c := by
      cases hh : t.toList.head? with
      | none => exact applyToken_head_none c t hh
      | some ch => exact applyToken_not_face c t ch hh (h t (by simp) ch hh)
    rw [ht]
    exact ih (fun tok hm => h tok (by simp [hm])) c

/-- C1: the claim that every phase loop inside `solve()` is bounded fails:
the slot-positioning loop of `solveWhiteCorners`, reached by `solve()` on
the concrete `F2`-scrambled state, runs forever for every fuel, because
its body executes the no-op token `y` while its guard compares immutable
centre stickers. -/
theorem claimC1_counterexample : slotLoopDiverges 'R' 'G' cornersEntrySt := by
  intro fuel
  exact slotLoop_none 'R' 'G' cornersEntrySt (by decide) fuel

/-- C1 (amended): only the loops with explicit attempt counters are
bounded; the slot-positioning `while` loop of `solveWhiteCorners` is
unbounded and never exits on a state whose front/right centres miss the
target pair, so `solve()` terminates exactly on already-solved inputs
(returning the empty solution) and on every other input no amount of fuel
completes it. -/
theorem claimC1 (fuel : Nat) (c : CubeState) :
    solveFuel fuel c = if isSolvedState c then some [] else none :=
  solveFuel_eq fuel c

/-- C2: a token whose upper-cased first character is not a face letter
leaves the cube unchanged under `executeAlgorithm` (the `_performMove`
switch falls through), while `CubeSolverJS.execute` still appends every
token of the algorithm, such tokens included, to the solution log. -/
theorem claimC2 (c : CubeState) (alg : String) (s : SolverSt)
    (h : ∀ tok ∈ tokenize alg, ∀ ch : Char,
      tok.toList.head? = some ch → ch.toUpper ∉ faceLetters) :
    executeAlgorithm c alg = c ∧ (execute alg s).solution = s.solution ++ tokenize alg :=
  ⟨replay_not_face (tokenize alg) h c, rfl⟩

/-- C2 witness at the whole-cube rotation token `y` on the solved state. -/
theorem claimC2_witness :
    executeAlgorithm solvedState strY = solvedState ∧
      (execute strY ⟨solvedState, []⟩).solution = [] ++ tokenize strY :=
  claimC2 solvedState strY ⟨solvedState, []⟩ (by
    intro tok htok ch hch
    have ht : tok = "y" := by
      have he : tokenize strY = ["y"] := by decide
      rw [he] at htok
      simpa using htok
    subst ht
    have hc : ch = 'y' := by
      have : some 'y' = some ch := hch
      exact (Option.some.inj this).symm
    subst hc
    decide)

/-- C3: the spec scenario fails in the code: on the solved state with
`F2` applied, `solve()` never returns (for every fuel the run is
incomplete), rather than returning a Solution that replays to solved. -/
theorem claimC3 (fuel : Nat) : solveFuel fuel stateF2 = none := by
  rw [solveFuel_eq]
  have h : isSolvedState stateF2 = false := by decide
  simp [h]

/-- C4: whenever `solve()` does return, every token of the returned
solution matches the section-3 move grammar and the reported move count
equals the solution length.  (By `solveFuel_eq`, the only runs that
return are on already-solved inputs, with the empty solution.) -/
theorem claimC4 (c : CubeState) (fuel : Nat) (sol : List String)
    (h : solveFuel fuel c = some sol) :
    (∀ t ∈ sol, isMoveToken t = true) ∧ workerMoveCount sol = sol.length := by
  rw [solveFuel_eq] at h
  split at h
  · cases h
    exact ⟨(by intro t ht; cases ht), rfl⟩
  · exact absurd h (by simp)

/-- C4 witness: the run on the solved state returns the empty solution. -/
theorem claimC4_witness :
    (∀ t ∈ ([] : List String), isMoveToken t = true) ∧
      workerMoveCount [] = List.length ([] : List String) :=
  claimC4 solvedState 0 [] (by decide)

/-- C6: any clockwise quarter turn of a face letter has order four. -/
theorem claimC6 (c : CubeState) (f : Char) (hf : f ∈ faceLetters) :
    performMove f (performMove f (performMove f (performMove f c))) = c :=
  pm4 f hf c

/-- C6 witness at the `U` face on the `F2`-scrambled state. -/
theorem claimC6_witness :
    'U' ∈ faceLetters ∧
      performMove 'U' (performMove 'U' (performMove 'U' (performMove 'U' stateF2)))
        = stateF2 :=
  ⟨by decide, claimC6 stateF2 'U' (by decide)⟩

/-- C8: the centre sticker (index 4) of every face is unchanged by
`rotateFace` in either direction, by `performMove` on any character, and
by `executeAlgorithm` on any input string. -/
theorem claimC8 (c : CubeState) (name : String) (cw : Bool) (f : Char) (alg : String) :
    centers (rotateFace c name cw) = centers c ∧
      centers (performMove f c) = centers c ∧
      centers (executeAlgorithm c alg) = centers c :=
  ⟨centers_rotateFace c name cw, centers_performMove f c, centers_executeAlgorithm c alg⟩

/-- C9: running the solver on the two-cell heap model never changes the
caller's cell: the constructor's deep copy is the only read of it. -/
theorem claimC9 (c : CubeState) (fuel : Nat) (out : List String) (w2 : SolveWorld)
    (h : runSolveWorld fuel (newSolverWorld c) = some (out, w2)) :
    w2.callerCube = c := by
  unfold runSolveWorld at h
  split at h
  · cases h; rfl
  · rw [runPhases_none] at h
    exact absurd h (by simp)

/-- C9 witness on the solved state. -/
theorem claimC9_witness :
    runSolveWorld 0 (newSolverWorld solvedState) = some ([], newSolverWorld solvedState) ∧
      (newSolverWorld solvedState).callerCube = solvedState :=
  ⟨by decide, claimC9 solvedState 0 [] (newSolverWorld solvedState) (by decide)⟩

/-- C10: on an already-solved input, `solve()` returns the empty move
sequence and the worker reports move count 0. -/
theorem claimC10 (c : CubeState) (fuel : Nat) (sol : List String)
    (h1 : isSolvedState c = true) (h2 : solveFuel fuel c = some sol) :
    sol = [] ∧ workerMoveCount sol = 0 := by
  rw [solveFuel_eq] at h2
  rw [h1] at h2
  simp only [if_true] at h2
  cases h2
  exact ⟨rfl, rfl⟩

/-- C10 witness on the solved state. -/
theorem claimC10_witness :
    ([] : List String) = [] ∧ workerMoveCount [] = 0 :=
  claimC10 solvedState 3 [] (by decide) (by decide)

theorem replay_append (c : CubeState) (a b : List String) :
    replay c (a ++ b) = replay (replay c a) b := by
  simp [replay, List.foldl_append]

theorem grammar_shapes (t : String) (h : isMoveToken t = true) :
    (∃ f, f ∈ faceLetters ∧ t = String.mk [f]) ∨
    (∃ f, f ∈ faceLetters ∧ t = String.mk [f, pCh]) ∨
    (∃ f, f ∈ faceLetters ∧ t = String.mk [f, '2']) := by
  have ht : t = String.mk t.toList := rfl
  unfold isMoveToken at h
  rcases hl : t.toList with _ | ⟨f, _ | ⟨m, _ | ⟨x, xs⟩⟩⟩ <;> rw [hl] at h
  · exact absurd h (by simp)
  · have hf : f ∈ faceLetters := by simpa using h
    exact Or.inl ⟨f, hf, by rw [ht, hl]⟩
  · simp only [Bool.and_eq_true, Bool.or_eq_true, beq_iff_eq] at h
    have hf : f ∈ faceLetters := by simpa using h.1
    rcases h.2 with hm | hm
    · exact Or.inr (Or.inl ⟨f, hf, by rw [ht, hl, hm]⟩)
    · exact Or.inr (Or.inr ⟨f, hf, by rw [ht, hl, hm]⟩)
  · exact absurd h (by simp)

theorem applyToken_bare (f : Char) (hf : f ∈ faceLetters) (c : CubeState) :
    applyToken c (String.mk [f]) = pmIter 1 f c := by
  fin_cases hf <;> rfl

theorem applyToken_prime (f : Char) (hf : f ∈ faceLetters) (c : CubeState) :
    applyToken c (String.mk [f, pCh]) = pmIter 3 f c := by
  fin_cases hf <;> rfl

theorem applyToken_double (f : Char) (hf : f ∈ faceLetters) (c : CubeState) :
    applyToken c (String.mk [f, '2']) = pmIter 2 f c := by
  fin_cases hf <;> rfl

theorem turnsOf_bare (f : Char) (hf : f ∈ faceLetters) :
    turnsOf (String.mk [f]) = 1 := by
  fin_cases hf <;> rfl

theorem turnsOf_prime (f : Char) (hf : f ∈ faceLetters) :
    turnsOf (String.mk [f, pCh]) = 3 := by
  fin_cases hf <;> rfl

theorem turnsOf_double (f : Char) (hf : f ∈ faceLetters) :
    turnsOf (String.mk [f, '2']) = 2 := by
  fin_cases hf <;> rfl

theorem grammar_sem (t : String) (h : isMoveToken t = true) :
    ∃ f, f ∈ faceLetters ∧ t.toList.head? = some f ∧
      1 ≤ turnsOf t ∧ turnsOf t < 4 ∧
      ∀ c : CubeState, applyToken c t = pmIter (turnsOf t) f c := by
  rcases grammar_shapes t h with ⟨f, hf, rfl⟩ | ⟨f, hf, rfl⟩ | ⟨f, hf, rfl⟩
  · rw [turnsOf_bare f hf]
    exact ⟨f, hf, rfl, by omega, by omega, applyToken_bare f hf⟩
  · rw [turnsOf_prime f hf]
    exact ⟨f, hf, rfl, by omega, by omega, applyToken_prime f hf⟩
  · rw [turnsOf_double f hf]
    exact ⟨f, hf, rfl, by omega, by omega, applyToken_double f hf⟩

theorem isMoveToken_bare (f : Char) (hf : f ∈ faceLetters) :
    isMoveToken (String.mk [f]) = true := by
  fin_cases hf <;> rfl

theorem isMoveToken_prime (f : Char) (hf : f ∈ faceLetters) :
    isMoveToken (String.mk [f, pCh]) = true := by
  fin_cases hf <;> rfl

theorem isMoveToken_double (f : Char) (hf : f ∈ faceLetters) :
    isMoveToken (String.mk [f, '2']) = true := by
  fin_cases hf <;> rfl

theorem replay_mergeTok (f : Char) (hf : f ∈ faceLetters) (k : Nat) (hk : k < 4)
    (c : CubeState) : replay c (mergeTok (some f) k) = pmIter k f c := by
  interval_cases k
  · rfl
  · exact applyToken_bare f hf c
  · exact applyToken_double f hf c
  · exact applyToken_prime f hf c

theorem mergeTok_grammar (f : Char) (hf : f ∈ faceLetters) (k : Nat) :
    ∀ t ∈ mergeTok (some f) k, isMoveToken t = true := by
  intro t ht
  by_cases h0 : (k == 0) = true
  · have he : mergeTok (some f) k = [] := by simp [mergeTok, h0]
    rw [he] at ht
    cases ht
  · by_cases h1 : (k == 1) = true
    · have he : mergeTok (some f) k = [String.mk [f]] := by simp [mergeTok, h0, h1]
      rw [he, List.mem_singleton] at ht
      subst ht
      exact isMoveToken_bare f hf
    · by_cases h2 : (k == 2) = true
      · have he : mergeTok (some f) k = [String.mk [f, '2']] := by
          simp [mergeTok, h0, h1, h2]
        rw [he, List.mem_singleton] at ht
        subst ht
        exact isMoveToken_double f hf
      · have he : mergeTok (some f) k = [String.mk [f, pCh]] := by
          simp [mergeTok, h0, h1, h2]
        rw [he, List.mem_singleton] at ht
        subst ht
        exact isMoveToken_prime f hf

theorem replay_simplifyPass :
    ∀ (l : List String), (∀ t ∈ l, isMoveToken t = true) →
      ∀ c : CubeState, replay c (simplifyPass l).1 = replay c l
  | [] => by intro _ c; rfl
  | [m] => by intro _ c; rfl
  | m1 :: m2 :: rest => by
    intro h c
    have h1 : isMoveToken m1 = true := h m1 (by simp)
    have h2 : isMoveToken m2 = true := h m2 (by simp)
    have hrest : ∀ t ∈ rest, isMoveToken t = true := fun t ht => h t (by simp [ht])
    have hr2 : ∀ t ∈ m2 :: rest, isMoveToken t = true := fun t ht => by
      rcases (List.mem_cons).1 ht with rfl | hm
      · exact h2
      · exact hrest t hm
    unfold simplifyPass
    split
    · rename_i heq
      obtain ⟨f1, hf1, hh1, hge1, hlt1, ha1⟩ := grammar_sem m1 h1
      obtain ⟨f2, hf2, hh2, hge2, hlt2, ha2⟩ := grammar_sem m2 h2
      have hf12 : f1 = f2 := by
        rw [hh1, hh2] at heq
        simpa using heq
      subst hf12
      rw [hh1]
      show replay c (mergeTok (some f1) ((turnsOf m1 + turnsOf m2) % 4) ++
        (simplifyPass rest).1) = replay c (m1 :: m2 :: rest)
      rw [replay_append,
          replay_mergeTok f1 hf1 _ (Nat.mod_lt _ (by omega)) c,
          replay_simplifyPass rest hrest, ← pmIter_mod f1 hf1]
      show replay (pmIter (turnsOf m1 + turnsOf m2) f1 c) rest =
        replay (applyToken (applyToken c m1) m2) rest
      rw [ha1, ha2, ← pmIter_add, Nat.add_comm]
    · show replay (applyToken c m1) (simplifyPass (m2 :: rest)).1 =
        replay (applyToken c m1) (m2 :: rest)
      exact replay_simplifyPass (m2 :: rest) hr2 _

theorem simplifyPass_grammar :
    ∀ (l : List String), (∀ t ∈ l, isMoveToken t = true) →
      ∀ t ∈ (simplifyPass l).1, isMoveToken t = true
  | [] => fun h => h
  | [m] => fun h => h
  | m1 :: m2 :: rest => by
    intro h t ht
    have h1 : isMoveToken m1 = true := h m1 (by simp)
    have hrest : ∀ x ∈ rest, isMoveToken x = true := fun x hx => h x (by simp [hx])
    have hr2 : ∀ x ∈ m2 :: rest, isMoveToken x = true := fun x hx => by
      rcases (List.mem_cons).1 hx with he | hm
      · subst he
        exact h x (by simp)
      · exact hrest x hm
    unfold simplifyPass at ht
    split at ht
    · rw [List.mem_append] at ht
      rcases ht with hm | hm
      · obtain ⟨f1, hf1, hh1, _⟩ := grammar_sem m1 h1
        rw [hh1] at hm
        exact mergeTok_grammar f1 hf1 _ t hm
      · exact simplifyPass_grammar rest hrest t hm
    · rcases (List.mem_cons).1 ht with rfl | hm
      · exact h1
      · exact simplifyPass_grammar (m2 :: rest) hr2 t hm

theorem replay_simplifyMoves_aux (n : Nat) :
    ∀ (l : List String), l.length ≤ n → (∀ t ∈ l, isMoveToken t = true) →
      ∀ c : CubeState, replay c (simplifyMoves l) = replay c l := by
  induction n with
  | zero =>
    intro l hl _ c
    have hnil : l = [] := List.eq_nil_of_length_eq_zero (Nat.le_zero.mp hl)
    subst hnil
    unfold simplifyMoves
    simp
  | succ n ih =>
    intro l hl h c
    unfold simplifyMoves
    split
    · rfl
    · split
      · rename_i hch
        rw [ih (simplifyPass l).1
              (by have := simplifyPass_len_lt l hch; omega)
              (simplifyPass_grammar l h) c,
            replay_simplifyPass l h]
      · exact replay_simplifyPass l h c

/-- C5: replaying a simplified move list has the same effect as replaying
the original, for any list of tokens of the section-3 move grammar and
any starting state. -/
theorem claimC5 (l : List String) (c : CubeState)
    (h : ∀ t ∈ l, isMoveToken t = true) :
    replay c (simplifyMoves l) = replay c l :=
  replay_simplifyMoves_aux l.length l le_rfl h c

/-- C5 witness: four quarter turns of `U` simplify away on the
`F2`-scrambled state. -/
theorem claimC5_witness :
    (∀ t ∈ (["U", "U", "U", "U"] : List String), isMoveToken t = true) ∧
      replay stateF2 (simplifyMoves ["U", "U", "U", "U"]) =
        replay stateF2 ["U", "U", "U", "U"] :=
  ⟨by decide, claimC5 ["U", "U", "U", "U"] stateF2 (by decide)⟩

theorem applyToken_invertToken (t : String) (h : isMoveToken t = true) (c : CubeState) :
    applyToken (applyToken c t) (invertToken t) = c := by
  rcases grammar_shapes t h with ⟨f, hf, rfl⟩ | ⟨f, hf, rfl⟩ | ⟨f, hf, rfl⟩
  · rw [applyToken_bare f hf]
    show applyToken (pmIter 1 f c) (String.mk [f, pCh]) = c
    rw [applyToken_prime f hf, ← pmIter_add]
    exact pmIter_four f hf c
  · rw [applyToken_prime f hf]
    show applyToken (pmIter 3 f c) (String.mk [f]) = c
    rw [applyToken_bare f hf, ← pmIter_add]
    exact pmIter_four f hf c
  · rw [applyToken_double f hf]
    show applyToken (pmIter 2 f c) (String.mk [f, '2']) = c
    rw [applyToken_double f hf, ← pmIter_add]
    exact pmIter_four f hf c

/-- C7: applying an algorithm of grammar tokens and then its move-wise
inverse (reversed order, bare and prime swapped, doubles kept) restores
the original state. -/
theorem claimC7 (l : List String) (c : CubeState)
    (h : ∀ t ∈ l, isMoveToken t = true) :
    replay (replay c l) (invertAlg l) = c := by
  induction l generalizing c with
  | nil => rfl
  | cons t ts ih =>
    have ht : isMoveToken t = true := h t (by simp)
    have hts : ∀ x ∈ ts, isMoveToken x = true := fun x hx => h x (by simp [hx])
    show replay (replay (applyToken c t) ts) (invertAlg (t :: ts)) = c
    have hrev : invertAlg (t :: ts) = invertAlg ts ++ [invertToken t] := by
      simp [invertAlg]
    rw [hrev, replay_append, ih _ hts]
    exact applyToken_invertToken t ht c

/-- C7 witness on the tokens `R U` and the `F2`-scrambled state. -/
theorem claimC7_witness :
    (∀ t ∈ (["R", "U"] : List String), isMoveToken t = true) ∧
      replay (replay stateF2 ["R", "U"]) (invertAlg ["R", "U"]) = stateF2 :=
  ⟨by decide, claimC7 ["R", "U"] stateF2 (by decide)⟩

end GoCubes
